import Mathlib

/-!
Verification development for the dossier-relationship pipeline
(address parsing, clustering and relation inference over historical
land-register dossiers).

The Lean definitions below are a shallow embedding of the pipeline
implemented in dossier_relationship.py.  Pandas dataframes become lists
of structures, in-place column updates become explicit state passing,
and the regular expressions become character-list matchers that follow
the backtracking behaviour of the Python re module on the character
classes actually used.  Two modelling notes that apply throughout:

* Cells of the pandas numbers column hold either a plain string or a
  Python list of strings; the two behave differently under comparison
  and membership operators, so they are embedded as distinct
  constructors of NumVal.  A Series.isin call whose value set contains
  Python lists is embedded as elementwise structural equality against
  the value set, which is the observed behaviour of the pandas versions
  the project ran (the hash of an unhashable cell is treated as a
  constant and equality falls back to rich comparison).
* The regular expressions of the source never deal with newline
  characters in practice; the matchers below treat a dot as matching
  any character except a newline and treat a trailing dollar as
  requiring that the remaining text contain no newline except possibly
  a final one, exactly as re.match does on single-line data.
-/

namespace HGB

/-! ## Basic character-list utilities -/

/-- Does pat occur as a contiguous substring of text? -/
def containsSub (pat : List Char) : List Char → Bool
  | [] => pat.isEmpty
  | c :: cs => pat.isPrefixOf (c :: cs) || containsSub pat cs

/-- Split text on every occurrence of the literal separator sep,
mirroring the Python str.split method with a nonempty argument. -/
def splitSepFuel (sep : List Char) : Nat → List Char → List Char → List (List Char)
  | 0, text, acc => [acc.reverse ++ text]
  | _ + 1, [], acc => [acc.reverse]
  | n + 1, c :: cs, acc =>
    if !sep.isEmpty && sep.isPrefixOf (c :: cs) then
      acc.reverse :: splitSepFuel sep n ((c :: cs).drop sep.length) []
    else
      splitSepFuel sep n cs (acc.concat c)

def splitOnSep (sep text : List Char) : List (List Char) :=
  splitSepFuel sep text.length text []

def splitS (sep s : String) : List String :=
  (splitOnSep sep.data s.data).map String.mk

/-- Remove the first occurrence of pat from text, mirroring the Python
str.replace method with count 1. -/
def replaceFirst : Nat → List Char → List Char → List Char
  | _, _, [] => []
  | 0, _, text => text
  | f + 1, pat, c :: cs =>
    if !pat.isEmpty && pat.isPrefixOf (c :: cs) then (c :: cs).drop pat.length
    else c :: replaceFirst f pat cs

/-- Remove every occurrence of pat from text, mirroring re.sub with a
literal pattern and an empty replacement. -/
def removeAllSub : Nat → List Char → List Char → List Char
  | _, _, [] => []
  | 0, _, text => text
  | f + 1, pat, c :: cs =>
    if !pat.isEmpty && pat.isPrefixOf (c :: cs) then
      removeAllSub f pat ((c :: cs).drop pat.length)
    else c :: removeAllSub f pat cs

/-- The Python whitespace class backslash-s of the re module. -/
def isPySpace (c : Char) : Bool :=
  c == ' ' || c == '\t' || c == '\n' || c == '\r' || c == '\x0b' || c == '\x0c'

/-- A regex dot: any character except a newline, at the head of the text. -/
def anyCharAt (cs : List Char) : Bool :=
  match cs.head? with
  | some c => c != '\n'
  | none => false

/-- Dot-star followed by an end anchor: the text may contain no newline
except possibly a single final one. -/
def dotStarEnd : List Char → Bool
  | [] => true
  | c :: cs => if c = '\n' then cs.isEmpty else dotStarEnd cs

/-! ## The numbers column

A cell of the numbers column of the dossier table is either a plain
string (one house number) or a list of strings (several house numbers),
exactly as in the source dataframe. -/

inductive NumVal where
  | scalar (s : String)
  | numlist (l : List String)
deriving DecidableEq, Repr

/-- The Python membership operator applied to a numbers cell: substring
test on a plain string, element test on a list. -/
def numvalContains (nv : NumVal) (x : String) : Bool :=
  match nv with
  | .scalar s => containsSub x.data s.data
  | .numlist l => l.contains x

/-! ## CorrectionApplier (house-number correction loops)

The correction loops of the source look up the row index of the
corrected dossier with an expression of the form
dossier.index.values followed by a subscript 0; when the corrected
dossier id is absent from the working table this raises an uncaught
IndexError.  The embedding returns none in that case. -/

structure DRow where
  id : String
  numbers : Option NumVal
deriving DecidableEq, Repr

/-- Translate one manual house-number correction value, mirroring the
three branches of the first correction loop: a dash clears the number,
a comma-space separated value becomes a list, anything else a scalar. -/
def parseCorrectionNumber (nc : String) : Option NumVal :=
  if nc = "-" then none
  else if containsSub (", ".data) nc.data then some (.numlist (splitS ", " nc))
  else some (.scalar nc)

/-- Apply one correction row to the dossier table.  The none result
models the uncaught IndexError raised by the source when the corrected
dossier id does not occur in the table. -/
def applyNumberCorrection (tbl : List DRow) (cid nc : String) : Option (List DRow) :=
  match tbl.findIdx? (fun r => r.id == cid) with
  | none => none
  | some i => some (tbl.set i { id := cid, numbers := parseCorrectionNumber nc })

theorem findIdx?_eq_none_of_forall {α : Type} (p : α → Bool) (l : List α)
    (h : ∀ x ∈ l, p x = false) : l.findIdx? p = none := by
  rw [List.findIdx?_eq_none_iff]
  intro x hx
  simp [h x hx]

/-- C7 counterexample: a manual-correction row whose dossierId is absent
from the working dossier set does not lead to a skipped row and a
continuing pipeline; the embedded correction step signals the uncaught
IndexError of the source (result none), so the run aborts instead of
continuing. -/
theorem correction_missing_id_cex :
    applyNumberCorrection [⟨"HGB_1_001_001", some (.scalar "21")⟩] "HGB_9_999_999" "5"
      = none ∧
    ∀ tbl2, applyNumberCorrection [⟨"HGB_1_001_001", some (.scalar "21")⟩]
      "HGB_9_999_999" "5" ≠ some tbl2 := by
  constructor
  · rfl
  · intro tbl2 h
    simp [applyNumberCorrection, List.findIdx?] at h

/-- C7 amended: a manual-correction row whose dossierId is absent from
the working dossier set makes the correction step raise an uncaught
IndexError (modelled as none), aborting the run; no console warning is
printed and the row is not skipped.  Both correction loops of the
source share this lookup pattern. -/
theorem correction_missing_id_aborts (tbl : List DRow) (cid nc : String)
    (h : ∀ r ∈ tbl, r.id ≠ cid) : applyNumberCorrection tbl cid nc = none := by
  unfold applyNumberCorrection
  rw [findIdx?_eq_none_of_forall]
  intro r hr
  have := h r hr
  simp [this]

/-- C7 witness. -/
theorem correction_missing_id_aborts_witness :
    (∀ r ∈ [DRow.mk "HGB_1_001_001" (some (.scalar "21")),
            DRow.mk "HGB_1_001_002" none], r.id ≠ "HGB_9_999_999") ∧
    applyNumberCorrection [DRow.mk "HGB_1_001_001" (some (.scalar "21")),
            DRow.mk "HGB_1_001_002" none] "HGB_9_999_999" "7" = none :=
  ⟨by decide,
   correction_missing_id_aborts _ "HGB_9_999_999" "7" (by decide)⟩

/-! ## TripleRelationDetector

Within a street, a house-number group whose closure holds exactly three
dossiers is screened for a dated relationship note: a descriptive note
matching the pattern (Bis or Seit), a space, four digits, rest
arbitrary.  When all three dossiers match with one common year, two
relation edges are emitted according to the keyword partition, and the
audit note about a found triple relation is appended to all three
dossiers. -/

structure Edge where
  origin : List String
  source : String
  target : String
deriving DecidableEq, Repr

structure TDossier where
  id : String
  descriptiveNote : Option String
deriving DecidableEq, Repr

/-- Match a keyword followed by a four-digit year at the start of a
note, with an arbitrary single-line rest, as in the prefix regex of the
source; returns the captured year group. -/
def matchKwYear (kw cs : List Char) : Option String :=
  if kw.isPrefixOf cs then
    let rest := cs.drop kw.length
    let ys := rest.take 4
    if ys.length = 4 && ys.all Char.isDigit && dotStarEnd (rest.drop 4) then
      some (String.mk ys)
    else none
  else none

/-- The dated-note match of the triple detector; the Bool is true for
the until keyword Bis and false for the since keyword Seit. -/
def yearNoteMatch (note : String) : Option (Bool × String) :=
  match matchKwYear ("Bis ".data) note.data with
  | some y => some (true, y)
  | none =>
    match matchKwYear ("Seit ".data) note.data with
    | some y => some (false, y)
    | none => none

/-- Dated-note match of one dossier; a missing note never matches, as
the source skips falsy descriptive notes. -/
def noteYear (d : TDossier) : Option (Bool × String) :=
  match d.descriptiveNote with
  | none => none
  | some s => yearNoteMatch s

/-- The guard of the triple detector: all three dossiers carry a dated
match and the matched years are all equal (nunique equal to one). -/
def tripleFires (g : List TDossier) : Prop :=
  g.length = 3 ∧ (∀ d ∈ g, (noteYear d).isSome) ∧
    (g.filterMap (fun d => (noteYear d).map Prod.snd)).dedup.length = 1

instance (g : List TDossier) : Decidable (tripleFires g) := by
  unfold tripleFires; infer_instance

/-- Ids of the group members whose note matched the until keyword. -/
def untilIds (g : List TDossier) : List String :=
  (g.filter (fun d => (noteYear d).map Prod.fst == some true)).map TDossier.id

/-- Ids of the group members whose note matched the since keyword. -/
def sinceIds (g : List TDossier) : List String :=
  (g.filter (fun d => (noteYear d).map Prod.fst == some false)).map TDossier.id

/-- The edge construction of the triple detector.  The first branch
requires exactly two until ids, the second exactly two since ids; in
any other partition no edge row is built. -/
def tripleEdges (idTo idFrom : List String) : List Edge :=
  if idTo.length = 2 then
    match idTo, idFrom with
    | [t0, t1], f0 :: _ => [⟨[t0, t1, f0], t0, f0⟩, ⟨[t0, t1, f0], t1, f0⟩]
    | _, _ => []
  else if idFrom.length = 2 then
    match idTo, idFrom with
    | t0 :: _, [f0, f1] => [⟨[t0, f0, f1], t0, f0⟩, ⟨[t0, f0, f1], t0, f1⟩]
    | _, _ => []
  else []

/-- One run of the triple detector on a three-member group: the emitted
relation edges together with a flag telling whether the audit note
about a found triple relation was appended to the group members. -/
def tripleStep (g : List TDossier) : List Edge × Bool :=
  if tripleFires g then (tripleEdges (untilIds g) (sinceIds g), true)
  else ([], false)

/-- C3 counterexample: a three-member group in which all three notes
match the until keyword with the same year.  The audit note about a
found triple relation is appended (flag true) although the keyword
partition is three until and zero since, and no edge is emitted; the
claimed equivalence between appending the audit note and the two-one
partition therefore fails on this input. -/
theorem triple_note_without_partition :
    tripleStep [⟨"A", some "Bis 1700."⟩, ⟨"B", some "Bis 1700."⟩,
                ⟨"C", some "Bis 1700."⟩] = ([], true) ∧
    (untilIds [⟨"A", some "Bis 1700."⟩, ⟨"B", some "Bis 1700."⟩,
               ⟨"C", some "Bis 1700."⟩]).length = 3 ∧
    (sinceIds [⟨"A", some "Bis 1700."⟩, ⟨"B", some "Bis 1700."⟩,
               ⟨"C", some "Bis 1700."⟩]).length = 0 := by decide

/-- C3 amended: the audit note is appended exactly when all three notes
carry a dated match with one common year, regardless of the keyword
partition; edges are emitted only in the two-one partitions, namely two
until dossiers each pointing to the lone since dossier, or the lone
until dossier pointing to each of two since dossiers, every edge
carrying all three ids as origin; in the remaining partitions (three
and zero) the note is still appended but no edge is emitted. -/
theorem tripleStep_characterization (g : List TDossier) :
    ((tripleStep g).2 = true ↔ tripleFires g) ∧
    (∀ t0 t1 f0, tripleFires g → untilIds g = [t0, t1] → sinceIds g = [f0] →
      (tripleStep g).1 = [⟨[t0, t1, f0], t0, f0⟩, ⟨[t0, t1, f0], t1, f0⟩]) ∧
    (∀ t0 f0 f1, tripleFires g → untilIds g = [t0] → sinceIds g = [f0, f1] →
      (tripleStep g).1 = [⟨[t0, f0, f1], t0, f0⟩, ⟨[t0, f0, f1], t0, f1⟩]) ∧
    (tripleFires g → (untilIds g).length ≠ 2 → (sinceIds g).length ≠ 2 →
      (tripleStep g).1 = []) := by
  refine ⟨?_, ?_, ?_, ?_⟩
  · unfold tripleStep
    by_cases h : tripleFires g <;> simp [h]
  · intro t0 t1 f0 hf hu hs
    simp [tripleStep, hf, tripleEdges, hu, hs]
  · intro t0 f0 f1 hf hu hs
    simp [tripleStep, hf, tripleEdges, hu, hs]
  · intro hf hu hs
    simp [tripleStep, hf, tripleEdges, hu, hs]

/-- C3 witness: the three-member group of the specification example,
with notes Bis 1700, Bis 1700 and Seit 1700, produces exactly two edges
both targeting the since dossier, with all three ids as origin. -/
theorem tripleStep_characterization_witness :
    tripleFires [⟨"A", some "Bis 1700."⟩, ⟨"B", some "Bis 1700."⟩,
                 ⟨"C", some "Seit 1700."⟩] ∧
    (tripleStep [⟨"A", some "Bis 1700."⟩, ⟨"B", some "Bis 1700."⟩,
                 ⟨"C", some "Seit 1700."⟩]).1 =
      [⟨["A", "B", "C"], "A", "C"⟩, ⟨["A", "B", "C"], "B", "C"⟩] :=
  ⟨by decide,
   (tripleStep_characterization [⟨"A", some "Bis 1700."⟩, ⟨"B", some "Bis 1700."⟩,
      ⟨"C", some "Seit 1700."⟩]).2.1 "A" "B" "C" (by decide) (by decide) (by decide)⟩

/-! ## ClusterAnnotator (median years and type patterns)

For every cluster of exactly three dossiers the annotator computes the
median of the entry years linked to each dossier and, when the dossier
types form one of two recognized patterns, derives union or split
relations oriented by comparing the median years. -/

/-- Insertion into a sorted list of years. -/
def insertSorted (x : Int) : List Int → List Int
  | [] => [x]
  | y :: ys => if x ≤ y then x :: y :: ys else y :: insertSorted x ys

def sortInts (l : List Int) : List Int := l.foldr insertSorted []

/-- The statistics.median function of the Python standard library on a
list of integer years: middle element for odd length, mean of the two
middle elements for even length.  The source raises an error on an
empty list; the embedding returns zero there, a case no theorem below
relies on. -/
def medianQ (l : List Int) : ℚ :=
  let s := sortInts l
  let n := l.length
  if n = 0 then 0
  else if n % 2 = 1 then (((s.get? (n / 2)).getD 0 : Int) : ℚ)
  else ((((s.get? (n / 2 - 1)).getD 0 + (s.get? (n / 2)).getD 0 : Int) : ℚ)) / 2

structure CDossier where
  id : String
  dtype : String
  years : List Int
deriving DecidableEq, Repr

/-- The median entry year of a dossier, as computed by the annotator
from the entry table. -/
def yearMedian (d : CDossier) : ℚ := medianQ d.years

/-- The group members of one dossier type, in group order; mirrors the
filtered value access of the source. -/
def typed (g : List CDossier) (t : String) : List CDossier :=
  g.filter (fun d => d.dtype == t)

/-- The core comparison of the annotator: two part dossiers p1 and p2
and one whole dossier w.  If the whole dossier has the strictly latest
median year the parts point to the whole (union); if it has the
strictly earliest median year the whole points to the parts (split);
otherwise, ties included, nothing is derived. -/
def deriveTriple (p1 p2 w : CDossier) : List (String × String) :=
  if yearMedian w > yearMedian p1 ∧ yearMedian w > yearMedian p2 then
    [(p1.id, w.id), (p2.id, w.id)]
  else if yearMedian w < yearMedian p1 ∧ yearMedian w < yearMedian p2 then
    [(w.id, p1.id), (w.id, p2.id)]
  else []

/-- Relation rows derived from one cluster, mirroring the two type
patterns of the source: two partOf with one unchanged, and two
unchanged with one joined, the single dossier playing the merged role
in both. -/
def clusterDerive (g : List CDossier) : List (String × String) :=
  if g.length = 3 then
    if (typed g "partOf").length = 2 ∧ (typed g "unchanged").length = 1 then
      match typed g "partOf", typed g "unchanged" with
      | [p1, p2], [u] => deriveTriple p1 p2 u
      | _, _ => []
    else if (typed g "unchanged").length = 2 ∧ (typed g "joined").length = 1 then
      match typed g "unchanged", typed g "joined" with
      | [u1, u2], [j] => deriveTriple u1 u2 j
      | _, _ => []
    else []
  else []

/-- C6: for a three-member cluster with two partOf and one unchanged
dossier, the annotator derives the two edges from the partOf dossiers
to the unchanged one exactly when the unchanged median year is strictly
above both partOf medians, the two reverse edges exactly when it is
strictly below both, and nothing otherwise, ties included; the pattern
with two unchanged and one joined dossier behaves symmetrically with
the joined dossier in the merged role. -/
theorem clusterAnnotator_median_rule (g : List CDossier) (hg : g.length = 3) :
    (∀ p1 p2 u, typed g "partOf" = [p1, p2] → typed g "unchanged" = [u] →
      ((yearMedian u > yearMedian p1 ∧ yearMedian u > yearMedian p2 →
          clusterDerive g = [(p1.id, u.id), (p2.id, u.id)]) ∧
       (yearMedian u < yearMedian p1 ∧ yearMedian u < yearMedian p2 →
          clusterDerive g = [(u.id, p1.id), (u.id, p2.id)]) ∧
       (¬(yearMedian u > yearMedian p1 ∧ yearMedian u > yearMedian p2) →
        ¬(yearMedian u < yearMedian p1 ∧ yearMedian u < yearMedian p2) →
          clusterDerive g = []))) ∧
    (∀ u1 u2 j, typed g "unchanged" = [u1, u2] → typed g "joined" = [j] →
      ((yearMedian j > yearMedian u1 ∧ yearMedian j > yearMedian u2 →
          clusterDerive g = [(u1.id, j.id), (u2.id, j.id)]) ∧
       (yearMedian j < yearMedian u1 ∧ yearMedian j < yearMedian u2 →
          clusterDerive g = [(j.id, u1.id), (j.id, u2.id)]) ∧
       (¬(yearMedian j > yearMedian u1 ∧ yearMedian j > yearMedian u2) →
        ¬(yearMedian j < yearMedian u1 ∧ yearMedian j < yearMedian u2) →
          clusterDerive g = []))) := by
  constructor
  · intro p1 p2 u hp hu
    have hred : clusterDerive g = deriveTriple p1 p2 u := by
      simp [clusterDerive, hg, hp, hu]
    refine ⟨?_, ?_, ?_⟩
    · intro h; rw [hred, deriveTriple, if_pos h]
    · intro h
      rw [hred, deriveTriple, if_neg ?_, if_pos h]
      rintro ⟨h1, -⟩; exact lt_asymm h.1 h1
    · intro h1 h2; rw [hred, deriveTriple, if_neg h1, if_neg h2]
  · intro u1 u2 j hu hj
    have hred : clusterDerive g = deriveTriple u1 u2 j := by
      simp [clusterDerive, hg, hu, hj]
    refine ⟨?_, ?_, ?_⟩
    · intro h; rw [hred, deriveTriple, if_pos h]
    · intro h
      rw [hred, deriveTriple, if_neg ?_, if_pos h]
      rintro ⟨h1, -⟩; exact lt_asymm h.1 h1
    · intro h1 h2; rw [hred, deriveTriple, if_neg h1, if_neg h2]

/-- C6 witness: a cluster with partOf medians 1700 and 1710 and an
unchanged median 1800 derives the two union edges. -/
theorem clusterAnnotator_median_rule_witness :
    ([⟨"P1", "partOf", [1700]⟩, ⟨"P2", "partOf", [1705, 1715]⟩,
      ⟨"U", "unchanged", [1800]⟩] : List CDossier).length = 3 ∧
    clusterDerive [⟨"P1", "partOf", [1700]⟩, ⟨"P2", "partOf", [1705, 1715]⟩,
      ⟨"U", "unchanged", [1800]⟩] = [("P1", "U"), ("P2", "U")] :=
  ⟨rfl,
   ((clusterAnnotator_median_rule [⟨"P1", "partOf", [1700]⟩,
      ⟨"P2", "partOf", [1705, 1715]⟩, ⟨"U", "unchanged", [1800]⟩] rfl).1
     ⟨"P1", "partOf", [1700]⟩ ⟨"P2", "partOf", [1705, 1715]⟩
     ⟨"U", "unchanged", [1800]⟩ (by decide) (by decide)).1
     (by norm_num [yearMedian, medianQ, sortInts, insertSorted])⟩

/-! ## Relation-table deduplication (C2)

After the note and triple extraction the relation table is reduced to
its source and target columns and deduplicated; every batch of edges
derived afterwards from a cluster is first checked against the current
table by an outer merge keeping only rows absent from it. -/

/-- Deduplication of the reduced relation table, keeping the first
occurrence of each row as pandas drop_duplicates does. -/
def dropDuplicatesP (l : List (String × String)) : List (String × String) :=
  l.foldl (fun acc p => if p ∈ acc then acc else acc ++ [p]) []

/-- Insertion of one cluster-derived batch: the outer-merge indicator
keeps exactly the rows not already present in the table, which are then
appended. -/
def annotateStep (rel : List (String × String)) (g : List CDossier) :
    List (String × String) :=
  rel ++ (clusterDerive g).filter (fun p => decide (p ∉ rel))

/-- The materialized relation table at the end of a run: the note and
triple edges reduced to source and target and deduplicated, then every
cluster batch inserted through the set-difference check. -/
def finalRelationTable (edges : List Edge) (clusters : List (List CDossier)) :
    List (String × String) :=
  clusters.foldl annotateStep
    (dropDuplicatesP (edges.map (fun e => (e.source, e.target))))

theorem dropDuplicatesP_aux_nodup (l : List (String × String))
    (acc : List (String × String)) (hacc : acc.Nodup) :
    (l.foldl (fun acc p => if p ∈ acc then acc else acc ++ [p]) acc).Nodup := by
  induction l generalizing acc with
  | nil => exact hacc
  | cons a l ih =>
    simp only [List.foldl_cons]
    by_cases h : a ∈ acc
    · simp [h]; exact ih acc hacc
    · simp [h]
      refine ih _ ?_
      simp [List.nodup_append, hacc, h]

theorem dropDuplicatesP_nodup (l : List (String × String)) :
    (dropDuplicatesP l).Nodup :=
  dropDuplicatesP_aux_nodup l [] List.nodup_nil

theorem clusterDerive_nodup (g : List CDossier)
    (hg : (g.map CDossier.id).Nodup) : (clusterDerive g).Nodup := by
  have hsub : ∀ t x y, typed g t = [x, y] → x.id ≠ y.id := by
    intro t x y ht
    have h1 : (typed g t).Sublist g := List.filter_sublist g
    have h2 : ((typed g t).map CDossier.id).Sublist (g.map CDossier.id) :=
      List.Sublist.map CDossier.id h1
    have h3 : ((typed g t).map CDossier.id).Nodup := List.Nodup.sublist h2 hg
    rw [ht] at h3
    simp at h3
    exact h3
  unfold clusterDerive
  split
  · split
    · split
      · rename_i p1 p2 u hp hu
        have hne := hsub "partOf" p1 p2 hp
        unfold deriveTriple
        split
        · simp [hne]
        · split
          · simp [hne]
          · exact List.nodup_nil
      · exact List.nodup_nil
    · split
      · split
        · rename_i hcond u1 u2 j hu hj
          have hne := hsub "unchanged" u1 u2 hu
          unfold deriveTriple
          split
          · simp [hne]
          · split
            · simp [hne]
            · exact List.nodup_nil
        · exact List.nodup_nil
      · exact List.nodup_nil
  · exact List.nodup_nil

theorem annotateStep_nodup (rel : List (String × String)) (g : List CDossier)
    (hrel : rel.Nodup) (hg : (g.map CDossier.id).Nodup) :
    (annotateStep rel g).Nodup := by
  unfold annotateStep
  rw [List.nodup_append]
  refine ⟨hrel, ?_, ?_⟩
  · exact List.Nodup.sublist (List.filter_sublist _) (clusterDerive_nodup g hg)
  · intro a ha hb
    rcases List.mem_filter.mp hb with ⟨-, hbn⟩
    exact (of_decide_eq_true hbn) ha

/-- C2: after a complete run the materialized relation table contains
no two rows with the same source and target pair: the note and triple
edges are deduplicated once, and every cluster-derived batch is checked
by set-difference against the current table before insertion, provided
the dossier ids within each cluster are distinct (they are a primary
key in the source data). -/
theorem relationTable_nodup (edges : List Edge) (clusters : List (List CDossier))
    (hc : ∀ g ∈ clusters, (g.map CDossier.id).Nodup) :
    (finalRelationTable edges clusters).Nodup := by
  unfold finalRelationTable
  have base := dropDuplicatesP_nodup (edges.map (fun e => (e.source, e.target)))
  revert base
  generalize dropDuplicatesP (edges.map (fun e => (e.source, e.target))) = rel
  intro base
  induction clusters generalizing rel with
  | nil => exact base
  | cons g cs ih =>
    simp only [List.foldl_cons]
    exact ih (fun x hx => hc x (List.mem_cons_of_mem g hx))
      _ (annotateStep_nodup rel g base (hc g (List.mem_cons_self g cs)))

/-- C2 witness: a run whose note stage emits the edge from A to C twice
and whose cluster stage derives the overlapping batch from A to C and
from B to C still produces a duplicate-free table. -/
theorem relationTable_nodup_witness :
    (∀ g ∈ [[CDossier.mk "A" "partOf" [1700], CDossier.mk "B" "partOf" [1710],
             CDossier.mk "C" "unchanged" [1800]]], (g.map CDossier.id).Nodup) ∧
    (finalRelationTable
      [⟨["A"], "A", "C"⟩, ⟨["A", "B", "C"], "A", "C"⟩]
      [[CDossier.mk "A" "partOf" [1700], CDossier.mk "B" "partOf" [1710],
        CDossier.mk "C" "unchanged" [1800]]]).Nodup :=
  ⟨by decide, relationTable_nodup _ _ (by decide)⟩

/-! ## NoteRelationExtractor

For each dossier whose descriptive note matched a directional
see-numbers statement, the extractor resolves the captured numbers
against the dossiers of the same street.  The captured numbers and the
matched fragment are parameters here: they are the group list and the
group string of the directional regex match of the source.  The united
branch searches for a unique merged sibling whose list-valued numbers
cell equals some permutation of the captured numbers; the separated
branch first checks that no combined sibling exists for any subset of
size at least two, and only then resolves each number independently
against scalar-valued numbers cells. -/

structure NDossier where
  idx : Nat
  id : String
  numbers : Option NumVal
  number_partof : Option NumVal
deriving DecidableEq, Repr

/-- Direction of the matched statement: a following (Nachher) match
points from the current dossier to the sibling, a previous (Vorher)
match points from the sibling to the current dossier. -/
inductive NDir where
  | following
  | before
deriving DecidableEq, Repr

def dirEdge (dir : NDir) (selfId otherId : String) : String × String :=
  match dir with
  | .following => (selfId, otherId)
  | .before => (otherId, selfId)

/-- Candidate siblings of the united branch: street rows whose numbers
cell is a list equal to some permutation of the captured numbers, the
current dossier removed by its frame index, rows with a set part-of
number removed, in the order of the source. -/
def unitedCandidates (street : List NDossier) (selfIdx : Nat)
    (nf : List String) : List NDossier :=
  ((street.filter (fun x =>
      match x.numbers with
      | some (NumVal.numlist l) => nf.permutations.contains l
      | _ => false)).filter
    (fun x => x.idx != selfIdx)).filter
    (fun x => x.number_partof == none)

/-- All permutations of the subsets of size r taken from the captured
numbers, by position, as itertools.permutations produces them. -/
def permsOfLen (r : Nat) (l : List String) : List (List String) :=
  (List.sublistsLen r l).flatMap List.permutations

/-- The combined-dossier test of the separated branch: some subset of
size at least two of the captured numbers, in some order, equals the
list-valued numbers cell of a street row other than the current
dossier (compared by id, as in the source). -/
def combinedExists (street : List NDossier) (selfId : String)
    (nf : List String) : Bool :=
  (List.range' 1 nf.length).any (fun r =>
    (permsOfLen r nf).any (fun subset =>
      decide (1 < subset.length) &&
        !(((street.filter (fun x =>
              x.numbers == some (NumVal.numlist subset))).filter
            (fun x => x.id != selfId)).isEmpty)))

/-- Candidate siblings for one captured number in the separated branch:
street rows whose numbers cell is the scalar equal to that number (an
elementwise comparison against a plain string matches no list cell),
the current dossier removed by index, part-of rows removed. -/
def scalarCandidates (street : List NDossier) (selfIdx : Nat)
    (n : String) : List NDossier :=
  ((street.filter (fun x => x.numbers == some (NumVal.scalar n))).filter
    (fun x => x.idx != selfIdx)).filter
    (fun x => x.number_partof == none)

/-- Match of the optional tail of the united pattern, an optional slash
number, an optional comma and the united keyword, at the head of the
text; returns the consumed length. -/
def combinedSuffixLen (cs : List Char) : Option Nat :=
  let tryTail : List Char → Nat → Option Nat := fun ds k =>
    let ds2 := if ds.head? == some ',' then ds.drop 1 else ds
    let k2 := if ds.head? == some ',' then k + 1 else k
    if (" vereinigt".data).isPrefixOf ds2 then some (k2 + 10) else none
  let slash : Option Nat :=
    match cs with
    | '/' :: rest =>
      let sp := if rest.head? == some ' ' then 1 else 0
      let rest2 := rest.drop sp
      let digs := rest2.takeWhile Char.isDigit
      if digs.isEmpty then none
      else tryTail (rest2.drop digs.length) (1 + sp + digs.length)
    | _ => none
  match slash with
  | some n => some n
  | none => tryTail cs 0

/-- The united-keyword search of the source: somewhere in the note the
matched fragment occurs, followed by the optional slash number, an
optional comma and the united keyword. -/
def hasCombinedAt (after : List Char) : List Char → Bool
  | [] => after.isPrefixOf [] && (combinedSuffixLen (([] : List Char).drop after.length)).isSome
  | c :: cs =>
    (after.isPrefixOf (c :: cs)
        && (combinedSuffixLen ((c :: cs).drop after.length)).isSome)
      || hasCombinedAt after cs

/-- Removal of every occurrence of the united pattern from the note, as
re.sub with an empty replacement does. -/
def removeCombined : Nat → List Char → List Char → List Char
  | _, _, [] => []
  | 0, _, text => text
  | f + 1, after, c :: cs =>
    match (if after.isPrefixOf (c :: cs) then
             combinedSuffixLen ((c :: cs).drop after.length)
           else none) with
    | some k => removeCombined f after ((c :: cs).drop (after.length + k))
    | none => c :: removeCombined f after cs

/-- The observable state updated by one directional block: the emitted
relation rows, the residual outside-match buffer, the postprocessing
note and the audit note of the current dossier. -/
structure NoteOut where
  edges : List (String × String)
  outsideMatch : String
  postNote : String
  auditNote : String
deriving DecidableEq, Repr

def dirWord (dir : NDir) : String :=
  match dir with
  | .following => "following"
  | .before => "before"

/-- One directional block of the extractor, after the directional regex
matched with captured numbers nf and matched fragment afterStr, acting
on the outside-match buffer om, the postprocessing note post and the
audit note audit. -/
def dirStep (dir : NDir) (street : List NDossier) (self : NDossier)
    (nf : List String) (afterStr om post audit : String) : NoteOut :=
  if hasCombinedAt afterStr.data om.data then
    match unitedCandidates street self.idx nf with
    | [x] =>
      ⟨[dirEdge dir self.id x.id],
       String.mk (removeCombined om.data.length afterStr.data om.data),
       post, audit ++ "Relation found on " ++ dirWord dir ++ " united. "⟩
    | _ => ⟨[], om, post, audit⟩
  else if combinedExists street self.id nf then ⟨[], om, post, audit⟩
  else
    nf.foldl (fun acc n =>
      match scalarCandidates street self.idx n with
      | [x] =>
        ⟨acc.edges ++ [dirEdge dir self.id x.id],
         String.mk (removeAllSub acc.outsideMatch.data.length afterStr.data
           acc.outsideMatch.data),
         acc.postNote,
         acc.auditNote ++ "Relation found on " ++ dirWord dir ++ ". "⟩
      | _ =>
        ⟨acc.edges, acc.outsideMatch,
         acc.postNote ++ "No " ++ dirWord dir ++ " relation found. ",
         acc.auditNote⟩)
      ⟨[], om, post, audit⟩

/-- A street sibling eligible for the united resolution, in the words
of the specification: another row, not a part-of dossier, whose numbers
list equals some permutation of the captured numbers. -/
def unitedSibling (self : NDossier) (nf : List String) (x : NDossier) : Prop :=
  x.idx ≠ self.idx ∧ x.number_partof = none ∧
    ∃ p, p ∈ nf.permutations ∧ x.numbers = some (NumVal.numlist p)

instance (self : NDossier) (nf : List String) (x : NDossier) :
    Decidable (unitedSibling self nf x) := by
  unfold unitedSibling; infer_instance

theorem unitedCandidates_eq_filter (street : List NDossier) (self : NDossier)
    (nf : List String) :
    unitedCandidates street self.idx nf =
      street.filter (fun x => decide (unitedSibling self nf x)) := by
  unfold unitedCandidates
  rw [List.filter_filter, List.filter_filter]
  apply List.filter_congr
  intro x hx
  rw [Bool.eq_iff_iff]
  cases hnum : x.numbers with
  | none => simp [unitedSibling, hnum]
  | some nv =>
    cases nv with
    | scalar s => simp [unitedSibling, hnum]
    | numlist l =>
      simp [unitedSibling, hnum, List.contains, List.elem_iff]
      tauto

/-- C4: in the united branch, when exactly one eligible sibling exists
(excluding the dossier itself and part-of dossiers, numbers equal to a
permutation of the captured numbers), exactly one relation edge is
emitted and the united phrase is removed from the outside-match buffer;
with zero or several eligible siblings nothing is emitted and the
buffer is untouched. -/
theorem noteExtractor_united_unique (dir : NDir) (street : List NDossier)
    (self : NDossier) (nf : List String) (afterStr om post audit : String)
    (hmatch : hasCombinedAt afterStr.data om.data = true) :
    (∀ x, street.filter (fun x => decide (unitedSibling self nf x)) = [x] →
      dirStep dir street self nf afterStr om post audit =
        ⟨[dirEdge dir self.id x.id],
         String.mk (removeCombined om.data.length afterStr.data om.data),
         post, audit ++ "Relation found on " ++ dirWord dir ++ " united. "⟩) ∧
    ((street.filter (fun x => decide (unitedSibling self nf x))).length ≠ 1 →
      dirStep dir street self nf afterStr om post audit =
        ⟨[], om, post, audit⟩) := by
  constructor
  · intro x hx
    rw [← unitedCandidates_eq_filter] at hx
    simp [dirStep, hmatch, hx]
  · intro hlen
    rw [← unitedCandidates_eq_filter] at hlen
    simp only [dirStep, hmatch, if_true]
    match hu : unitedCandidates street self.idx nf with
    | [] => simp
    | [x] => rw [hu] at hlen; simp at hlen
    | x :: y :: rest => simp

/-- C4 witness: the specification example, a note saying Nachher siehe
10, 12 vereinigt with one sibling holding exactly the numbers 10 and
12; one merge edge is emitted and the phrase is stripped from the
buffer, leaving only the final period. -/
theorem noteExtractor_united_unique_witness :
    hasCombinedAt ("Nachher siehe 10, 12").data
        ("Nachher siehe 10, 12 vereinigt.").data = true ∧
    dirStep .following
      [⟨0, "S", some (.scalar "8"), none⟩,
       ⟨1, "T", some (.numlist ["10", "12"]), none⟩]
      ⟨0, "S", some (.scalar "8"), none⟩ ["10", "12"]
      "Nachher siehe 10, 12" "Nachher siehe 10, 12 vereinigt." "" "" =
      ⟨[("S", "T")], ".", "", "Relation found on following united. "⟩ := by
  constructor
  · decide
  · have h := (noteExtractor_united_unique .following
      [⟨0, "S", some (.scalar "8"), none⟩,
       ⟨1, "T", some (.numlist ["10", "12"]), none⟩]
      ⟨0, "S", some (.scalar "8"), none⟩ ["10", "12"]
      "Nachher siehe 10, 12" "Nachher siehe 10, 12 vereinigt." "" ""
      (by decide)).1 ⟨1, "T", some (.numlist ["10", "12"]), none⟩ (by decide)
    rw [h]
    decide

/-- A combined street sibling in the words of the specification:
another dossier, compared by id, whose numbers list equals a
permutation of some subset of size at least two of the captured
numbers. -/
def combinedSibling (selfId : String) (nf : List String) (x : NDossier) : Prop :=
  x.id ≠ selfId ∧ ∃ r, 2 ≤ r ∧ r ≤ nf.length ∧
    ∃ s ∈ permsOfLen r nf, x.numbers = some (NumVal.numlist s)

theorem combinedExists_of_sibling (street : List NDossier) (selfId : String)
    (nf : List String) (x : NDossier) (hx : x ∈ street)
    (hsib : combinedSibling selfId nf x) :
    combinedExists street selfId nf = true := by
  rcases hsib with ⟨hid, r, hr2, hrle, s, hs, hnum⟩
  unfold combinedExists
  rw [List.any_eq_true]
  refine ⟨r, ?_, ?_⟩
  · rw [List.mem_range']
    exact ⟨r - 1, by omega, by omega⟩
  · rw [List.any_eq_true]
    refine ⟨s, hs, ?_⟩
    have hslen : s.length = r := by
      rcases List.mem_flatMap.mp hs with ⟨t, ht, hst⟩
      have h1 : t.length = r := (List.mem_sublistsLen.mp ht).2
      have h2 : s.Perm t := List.mem_permutations.mp hst
      rw [h2.length_eq, h1]
    rw [Bool.and_eq_true]
    constructor
    · simp [hslen]; omega
    · rw [Bool.not_eq_true']
      rw [List.isEmpty_eq_false_iff_exists_mem]
      exact ⟨x, by
        rw [List.mem_filter, List.mem_filter]
        refine ⟨⟨hx, ?_⟩, ?_⟩
        · simp [hnum]
        · simp [hid]⟩

/-- C5: in a directional match without the united qualifier, if some
other street dossier holds a numbers list equal to a permutation of a
size-two-or-larger subset of the captured numbers, the whole block is
skipped: no edge is emitted, the outside-match buffer, the
postprocessing note and the audit note are all left untouched, so
nothing is logged; per-number resolution runs only when no such
combined dossier exists. -/
theorem noteExtractor_combined_skip (dir : NDir) (street : List NDossier)
    (self : NDossier) (nf : List String) (afterStr om post audit : String)
    (hnm : hasCombinedAt afterStr.data om.data = false)
    (x : NDossier) (hx : x ∈ street)
    (hsib : combinedSibling self.id nf x) :
    dirStep dir street self nf afterStr om post audit = ⟨[], om, post, audit⟩ := by
  have hc := combinedExists_of_sibling street self.id nf x hx hsib
  simp [dirStep, hnm, hc]

/-- C5 witness: a note saying Vorher siehe 7, 9 with a street sibling
whose numbers list is exactly 7 and 9; the block is skipped without any
edge or note. -/
theorem noteExtractor_combined_skip_witness :
    hasCombinedAt ("Vorher siehe 7, 9").data
        ("Seit 1735. Vorher siehe 7, 9.").data = false ∧
    dirStep .before
      [⟨0, "S", some (.scalar "7"), none⟩,
       ⟨1, "T", some (.numlist ["7", "9"]), none⟩]
      ⟨0, "S", some (.scalar "7"), none⟩ ["7", "9"]
      "Vorher siehe 7, 9" "Seit 1735. Vorher siehe 7, 9." "note" "audit" =
      ⟨[], "Seit 1735. Vorher siehe 7, 9.", "note", "audit"⟩ :=
  ⟨by decide,
   noteExtractor_combined_skip .before
     [⟨0, "S", some (.scalar "7"), none⟩,
      ⟨1, "T", some (.numlist ["7", "9"]), none⟩]
     ⟨0, "S", some (.scalar "7"), none⟩ ["7", "9"]
     "Vorher siehe 7, 9" "Seit 1735. Vorher siehe 7, 9." "note" "audit"
     (by decide) ⟨1, "T", some (.numlist ["7", "9"]), none⟩ (by decide)
     ⟨by decide, 2, by decide, by decide, ["7", "9"], by decide, by decide⟩⟩

/-! ## AddressParser

The title of a dossier is parsed into a street name, a numbers cell and
a leftover text.  The matchers below reproduce the regular expressions
of the source on character lists, with the backtracking priorities of
the re module: alternatives are tried in written order, optional groups
first with and then without their content, and starred groups prefer
the longest match that lets the remaining pattern succeed. -/

/-- The street character class: letters, the three lowercase umlauts, a
period, a hyphen and whitespace. -/
def streetChar (c : Char) : Bool :=
  c.isAlpha || c == 'ä' || c == 'ö' || c == 'ü' || c == '.' || c == '-' || isPySpace c

/-- The final character class of the street pattern: letters and the
three lowercase umlauts. -/
def letterChar (c : Char) : Bool :=
  c.isAlpha || c == 'ä' || c == 'ö' || c == 'ü'

def dropTrailWhile (p : Char → Bool) (l : List Char) : List Char :=
  (l.reverse.dropWhile p).reverse

/-- The leading street match: the longest prefix of street characters,
its trailing non-letter characters given back so that the match ends in
a letter, which is how the greedy star followed by a letter class
behaves. -/
def streetRaw (title : List Char) : List Char :=
  dropTrailWhile (fun c => !letterChar c) (title.takeWhile streetChar)

def isStreetGroup (l : List Char) : Bool :=
  !l.isEmpty && l.all streetChar &&
    (match l.getLast? with | some c => letterChar c | none => false)

/-- The part-of marker alternatives with a leading space, used by the
street-name correction; the periods of the abbreviations are unescaped
in the source and therefore match any character. -/
def markerLensSp (cs : List Char) : List Nat :=
  (if (" Theil".data).isPrefixOf cs then [6] else []) ++
  (if (" Th".data).isPrefixOf cs && anyCharAt (cs.drop 3) then [4] else []) ++
  (if (" Th".data).isPrefixOf cs then [3] else []) ++
  (if (" T".data).isPrefixOf cs && anyCharAt (cs.drop 2) then [3] else []) ++
  (if (" Tv".data).isPrefixOf cs && anyCharAt (cs.drop 3) then [4] else [])

/-- The optional von group of the street-name correction. -/
def vonLensNoTrail (cs : List Char) : List Nat :=
  (if (" von".data).isPrefixOf cs then [4] else []) ++
  (if (" v".data).isPrefixOf cs then [2] else []) ++ [0]

def partofRestOk (cs : List Char) : Bool :=
  (markerLensSp cs).any (fun m =>
    (vonLensNoTrail (cs.drop m)).any (fun v => dotStarEnd (cs.drop (m + v))))

/-- The street-name correction: the greedy engine keeps the longest
street group whose remainder starts with a part-of marker; the special
Marktplatz case overrides the generic rule. -/
def streetSplit (street : List Char) : List Char :=
  match ((List.range street.length).reverse).find? (fun p =>
      decide (0 < p) && isStreetGroup (street.take p) && partofRestOk (street.drop p)) with
  | some p =>
    let s2 := street.take p
    if ("Marktplatz Theil von".data).isPrefixOf s2 then "Marktplatz".data else s2
  | none => street

def specialQualifiers : List (List Char) :=
  [" vor".data, " unter".data, " bei".data, " alt".data,
   " abgebrochen".data, " innerhalb".data]

def hasSpecial (street : List Char) : Bool :=
  specialQualifiers.any (fun q => containsSub q street)

/-- The first whitespace-separated token, as the Python split method
followed by a zero subscript produces it. -/
def firstToken (l : List Char) : List Char :=
  (l.dropWhile isPySpace).takeWhile (fun c => !isPySpace c)

/-! The fully anchored house-number list pattern of the first loop:
one or more repetitions of an optional separator (comma-space, or an
optional space, a slash and a space), at least one digit, and an
optional lowercase letter with an optional space before it. -/

def sepLensA (cs : List Char) : List Nat :=
  (if (", ".data).isPrefixOf cs then [2] else []) ++
  (if (" / ".data).isPrefixOf cs then [3] else []) ++
  (if ("/ ".data).isPrefixOf cs then [2] else []) ++ [0]

def optLowerLens (cs : List Char) : List Nat :=
  (match cs with
   | ' ' :: c :: _ => if 'a' ≤ c && c ≤ 'z' then [2] else []
   | _ => []) ++
  (match cs with
   | c :: _ => if 'a' ≤ c && c ≤ 'z' then [1] else []
   | _ => []) ++ [0]

/-- All consumption lengths of one repetition, in engine priority
order; the digit run may backtrack to fewer digits. -/
def repChoicesA (cs : List Char) : List Nat :=
  (sepLensA cs).flatMap (fun s =>
    let rest := cs.drop s
    let digs := (rest.takeWhile Char.isDigit).length
    ((List.range digs).map (fun k => digs - k)).flatMap (fun d =>
      (optLowerLens (rest.drop d)).map (fun l => s + d + l)))

def numListRest (fuel : Nat) (cs : List Char) : Bool :=
  match fuel with
  | 0 => cs.isEmpty
  | f + 1 =>
    cs.isEmpty || (repChoicesA cs).any (fun k => k != 0 && numListRest f (cs.drop k))

/-- Full match of the anchored number-list pattern. -/
def numListFull (cs : List Char) : Bool :=
  (repChoicesA cs).any (fun k => k != 0 && numListRest cs.length (cs.drop k))

/-- Turn the matched numbers group into the stored cell: a comma gives
a comma-space split list, otherwise a slash gives a slash split of the
space-free text, otherwise the plain string. -/
def numbersToVal (numbers : List Char) : NumVal :=
  if containsSub [','] numbers then
    .numlist ((splitOnSep (", ".data) numbers).map String.mk)
  else if containsSub ['/'] numbers then
    .numlist ((splitOnSep ['/'] (numbers.filter (fun c => c != ' '))).map String.mk)
  else .scalar (String.mk numbers)

/-! The part-of head of the first loop: a marker without leading space
followed by a mandatory space and an optional von group with trailing
space. -/

def markerAltsB (cs : List Char) : List Nat :=
  (if ("Theil".data).isPrefixOf cs then [5] else []) ++
  (if ("Th".data).isPrefixOf cs && anyCharAt (cs.drop 2) then [3] else []) ++
  (if ("Th".data).isPrefixOf cs then [2] else []) ++
  (if ("T".data).isPrefixOf cs && anyCharAt (cs.drop 1) then [2] else []) ++
  (if ("Tv".data).isPrefixOf cs && anyCharAt (cs.drop 2) then [3] else [])

def vonLensB (cs : List Char) : List Nat :=
  (if ("von ".data).isPrefixOf cs then [4] else []) ++
  (if ("v".data).isPrefixOf cs && anyCharAt (cs.drop 1) &&
      (cs.drop 2).head? == some ' ' then [3] else []) ++ [0]

def partofHeadLen (cs : List Char) : Option Nat :=
  ((markerAltsB cs).flatMap (fun m =>
    if (cs.drop m).head? == some ' ' then
      (vonLensB (cs.drop (m + 1))).filterMap (fun v =>
        if dotStarEnd (cs.drop (m + 1 + v)) then some (m + 1 + v) else none)
    else [])).head?

/-! The unanchored numbers group of the part-of branch: repetitions of
an optional separator, digits, and an optional single letter that is
followed by a space or ends the text. -/

def sepLensC (cs : List Char) : List Nat :=
  (if (", ".data).isPrefixOf cs then [2] else []) ++
  (if (" / ".data).isPrefixOf cs then [3] else []) ++ [0]

def alphaTailLens (cs : List Char) : List Nat :=
  (match cs with
   | ' ' :: c :: ' ' :: _ => if c.isAlpha then [3] else []
   | _ => []) ++
  (match cs with
   | c :: ' ' :: _ => if c.isAlpha then [2] else []
   | _ => []) ++
  (match cs with
   | [' ', c] => if c.isAlpha then [2] else []
   | _ => []) ++
  (match cs with
   | [c] => if c.isAlpha then [1] else []
   | _ => []) ++ [0]

/-- One repetition of the unanchored numbers group; since the trailing
catch-all group accepts any single-line text, the greedy engine takes
the first viable choice. -/
def rep5Len (cs : List Char) : Option Nat :=
  ((sepLensC cs).flatMap (fun s =>
    let rest := cs.drop s
    let digs := (rest.takeWhile Char.isDigit).length
    if digs = 0 then []
    else [s + digs + ((alphaTailLens (rest.drop digs)).headD 0)])).head?

def numGroupLen : Nat → List Char → Nat
  | 0, _ => 0
  | f + 1, cs =>
    match rep5Len cs with
    | some k => k + numGroupLen f (cs.drop k)
    | none => 0

/-- The word character class of the re module, restricted to the
alphabet of this data: letters, digits, the underscore and the German
special letters. -/
def wordChar (c : Char) : Bool :=
  c.isAlpha || c.isDigit || c == '_' || c == 'ä' || c == 'ö' || c == 'ü' ||
    c == 'Ä' || c == 'Ö' || c == 'Ü' || c == 'ß'

def wordOrDot (c : Char) : Bool := c == '.' || wordChar c

/-- The Python rpartition method on a comma: the text before the last
comma and the text after it, or none when no comma occurs. -/
def rpartitionComma (cs : List Char) : Option (List Char × List Char) :=
  match cs.reverse.findIdx? (fun c => c == ',') with
  | none => none
  | some k => some (cs.take (cs.length - 1 - k), cs.drop (cs.length - k))

/-! The trailing und correction of the part-of branch: a greedy
catch-all, a space, the abbreviation u followed by any character or the
word und, a space, and an anchored number list. -/

def uAltLens (cs : List Char) : List Nat :=
  (if ("u".data).isPrefixOf cs && anyCharAt (cs.drop 1) then [2] else []) ++
  (if ("und".data).isPrefixOf cs then [3] else [])

def numsEndFull : Nat → List Char → Bool
  | 0, _ => false
  | f + 1, cs =>
    ((if (", ".data).isPrefixOf cs then [2] else []) ++ [0]).any (fun s =>
      let rest := cs.drop s
      let digs := (rest.takeWhile Char.isDigit).length
      digs != 0 && ((rest.drop digs).isEmpty || numsEndFull f (rest.drop digs)))

/-- The split of the trailing und correction: the length of the
catch-all group and the start of the trailing number group, the
catch-all being greedy. -/
def undSplit (cs : List Char) : Option (Nat × Nat) :=
  (((List.range (cs.length + 1)).reverse).filterMap (fun p =>
    if (cs.drop p).head? == some ' ' then
      ((uAltLens (cs.drop (p + 1))).filterMap (fun u =>
        if (cs.drop (p + 1 + u)).head? == some ' ' &&
            numsEndFull cs.length (cs.drop (p + 2 + u)) then
          some (p, p + 2 + u)
        else none)).head?
    else none)).head?

structure ParsedA where
  street : String
  numbers : Option NumVal
  leftoverCol : Option String
deriving DecidableEq, Repr

/-- The first parsing loop of the source: street extraction with the
part-of and special-qualifier corrections, then the anchored number
list, then the part-of branch with its two corrections, and otherwise
the raw remainder stored for manual review. -/
def parseLoop1 (title : String) : ParsedA :=
  let t := title.data
  let s1 := streetRaw t
  let s2 := streetSplit s1
  let street := if hasSpecial s2 then firstToken s2 else s2
  let rest := (replaceFirst t.length street t).dropWhile isPySpace
  if numListFull rest then
    ⟨String.mk street, some (numbersToVal rest), none⟩
  else
    match partofHeadLen rest with
    | some k =>
      let pf2 := rest.drop k
      match rep5Len pf2 with
      | some _ =>
        let glen := numGroupLen pf2.length pf2
        let nums0 := pf2.take glen
        let post0 := pf2.drop glen
        let np1 : List Char × List Char :=
          if (match post0.head? with | some c => wordOrDot c | none => false) then
            match rpartitionComma nums0 with
            | some (a, b) => (a, (',' :: b) ++ post0)
            | none => ([], (',' :: nums0) ++ post0)
          else (nums0, post0)
        let np2 : List Char × List Char :=
          match undSplit np1.2 with
          | some (p, ns) => (np1.1 ++ (", ".data) ++ (np1.2.drop ns), np1.2.take p)
          | none => np1
        ⟨String.mk street, some (numbersToVal np2.1), some (String.mk np2.2)⟩
      | none => ⟨String.mk street, none, none⟩
    | none => ⟨String.mk street, none, some (String.mk rest)⟩

/-! The second loop determines the fractional part-of numbers.  Its
marker alternatives carry the trailing space inside each alternative. -/

def markerLensTr (cs : List Char) : List Nat :=
  (if ("Theil ".data).isPrefixOf cs then [6] else []) ++
  (if ("Th".data).isPrefixOf cs && anyCharAt (cs.drop 2) &&
      (cs.drop 3).head? == some ' ' then [4] else []) ++
  (if ("Th ".data).isPrefixOf cs then [3] else []) ++
  (if ("T".data).isPrefixOf cs && anyCharAt (cs.drop 1) &&
      (cs.drop 2).head? == some ' ' then [3] else []) ++
  (if ("Tv".data).isPrefixOf cs && anyCharAt (cs.drop 2) &&
      (cs.drop 3).head? == some ' ' then [4] else [])

def nebenLens (cs : List Char) : List Nat :=
  (if (" neben ".data).isPrefixOf cs then [7] else []) ++
  (if (" n".data).isPrefixOf cs && anyCharAt (cs.drop 2) &&
      (cs.drop 3).head? == some ' ' then [4] else [])

/-- The neben pattern of the second loop: marker, optional von group,
the part-of digits, the neben alternatives, the next-to digits and the
trailing text; returns the part-of group, the next-to group and the
trailing group. -/
def patternA (cs : List Char) : Option (String × String × String) :=
  ((markerLensTr cs).flatMap (fun m =>
    (vonLensB (cs.drop m)).flatMap (fun v =>
      let rest := cs.drop (m + v)
      let d1 := rest.takeWhile Char.isDigit
      if d1.isEmpty then []
      else
        (nebenLens (rest.drop d1.length)).flatMap (fun nb =>
          let rest2 := (rest.drop d1.length).drop nb
          let d2 := rest2.takeWhile Char.isDigit
          if d2.isEmpty then []
          else if dotStarEnd (rest2.drop d2.length) then
            [(String.mk d1, String.mk d2, String.mk (rest2.drop d2.length))]
          else [])))).head?

/-- The plain part-of pattern of the second loop: marker, optional von
group, digits with an optional letter a, and the trailing text. -/
def patternB (cs : List Char) : Option (String × String) :=
  ((markerLensTr cs).flatMap (fun m =>
    (vonLensB (cs.drop m)).flatMap (fun v =>
      let rest := cs.drop (m + v)
      let d1 := rest.takeWhile Char.isDigit
      if d1.isEmpty then []
      else
        let aopt := if (rest.drop d1.length).head? == some 'a' then 1 else 0
        if dotStarEnd (rest.drop (d1.length + aopt)) then
          [(String.mk (d1 ++ (if aopt = 1 then ['a'] else [])),
            String.mk (rest.drop (d1.length + aopt)))]
        else []))).head?

def patternCAt (cs : List Char) : Option String :=
  ((markerLensTr cs).flatMap (fun m =>
    (vonLensB (cs.drop m)).flatMap (fun v =>
      let rest := cs.drop (m + v)
      let d1 := rest.takeWhile Char.isDigit
      if d1.isEmpty then [] else [String.mk d1]))).head?

/-- The searched part-of pattern of the second loop: the leftmost
occurrence of marker, optional von group and digits. -/
def patternC : List Char → Option String
  | [] => none
  | c :: cs =>
    match patternCAt (c :: cs) with
    | some r => some r
    | none => patternC cs

/-- The hard-coded exception table of the second loop: dossier ids with
hand-verified part-of values. -/
def specialPartofTable : List (String × NumVal) :=
  [("HGB_1_074_075", .numlist ["8", "10"]),
   ("HGB_1_122_026", .numlist ["5", "6"]),
   ("HGB_1_136_012", .numlist ["3", "5"]),
   ("HGB_1_136_013", .numlist ["3", "5"]),
   ("HGB_1_159_054", .numlist ["31", "33"]),
   ("HGB_1_229_020", .numlist ["17", "21"]),
   ("HGB_1_154_027", .numlist ["21", "19"]),
   ("HGB_1_154_031", .numlist ["21", "23"]),
   ("HGB_1_154_028", .numlist ["21", "19"]),
   ("HGB_1_154_032", .numlist ["21", "23"]),
   ("HGB_1_154_029", .numlist ["21", "19"]),
   ("HGB_1_147_026", .numlist ["25", "23"]),
   ("HGB_1_091_056", .numlist ["29", "31"]),
   ("HGB_1_024_096", .scalar "10 A"),
   ("HGB_1_024_097", .scalar "10 B"),
   ("HGB_1_024_099", .scalar "10 D"),
   ("HGB_1_091_020", .scalar "61")]

structure Parsed2 where
  number_partof : Option NumVal
  leftoverCol : Option String
deriving DecidableEq, Repr

/-- The second parsing loop for one dossier: skip when no number was
detected, apply the exception table, then try the neben pattern, the
plain pattern and the searched pattern in order, each guarded by a
membership test of the captured part-of group in the numbers cell. -/
def parsePartofStage (dossierId title street : String) (numbers : Option NumVal)
    (leftoverCol : Option String) : Parsed2 :=
  let sp := (replaceFirst title.data.length street.data title.data).dropWhile isPySpace
  match numbers with
  | none => ⟨none, leftoverCol⟩
  | some nv =>
    match specialPartofTable.find? (fun e => e.1 == dossierId) with
    | some e => ⟨some e.2, leftoverCol⟩
    | none =>
      let ra : Option Parsed2 :=
        match patternA sp with
        | some (pof, _nx, post) =>
          if numvalContains nv pof then some ⟨some (.scalar pof), some post⟩ else none
        | none => none
      match ra with
      | some r => r
      | none =>
        let rb : Option Parsed2 :=
          match patternB sp with
          | some (pof, post) =>
            if numvalContains nv pof then some ⟨some (.scalar pof), some post⟩ else none
          | none => none
        match rb with
        | some r => r
        | none =>
          match patternC sp with
          | some pof =>
            if numvalContains nv pof then ⟨some (.scalar pof), leftoverCol⟩
            else ⟨none, leftoverCol⟩
          | none => ⟨none, leftoverCol⟩

/-- The surviving parse columns after the auxiliary leftover column is
dropped, exactly the address fields of the exported dossier table. -/
structure DossierParsed where
  street : String
  numbers : Option NumVal
  number_partof : Option NumVal
deriving DecidableEq, Repr

def parseAddress (dossierId title : String) : DossierParsed :=
  let a := parseLoop1 title
  let b := parsePartofStage dossierId title a.street a.numbers a.leftoverCol
  ⟨a.street, a.numbers, b.number_partof⟩

def numvalStrings : Option NumVal → List String
  | none => []
  | some (.scalar s) => [s]
  | some (.numlist l) => l

/-- Every house-number token and the street recorded in the surviving
parser output of one dossier. -/
def recordedStrings (d : DossierParsed) : List String :=
  [d.street] ++ numvalStrings d.numbers ++ numvalStrings d.number_partof

/-- C8 counterexample: the title Eisengasse 21 is parsed to the plain
scalar string 21, not to a one-element list; the source stores a list
only when several numbers are present, and the scalar and list forms
behave differently in later comparisons. -/
theorem parse_eisengasse_scalar_cex :
    (parseAddress "HGB_TEST_A" "Eisengasse 21").numbers = some (NumVal.scalar "21") ∧
    (parseAddress "HGB_TEST_A" "Eisengasse 21").numbers ≠ some (NumVal.numlist ["21"]) := by
  decide

/-- C8 amended: parsing the title Eisengasse 21 yields the street
Eisengasse and the scalar house number 21 (a plain string, not a
one-element list), with no part-of number. -/
theorem parse_eisengasse_result :
    parseAddress "HGB_TEST_A" "Eisengasse 21" =
      ⟨"Eisengasse", some (NumVal.scalar "21"), none⟩ := by decide

/-- C9 counterexample: for the title Petersgraben Th. v. 20 neben 18
the next-to number 18 is captured by the neben pattern but recorded
nowhere: it occurs in no surviving output field, and the auxiliary
leftover column, the only place the trailing group is written to, is
set to the empty remainder and later dropped. -/
theorem parse_nextto_cex :
    patternA ("Th. v. 20 neben 18").data = some ("20", "18", "") ∧
    "18" ∉ recordedStrings (parseAddress "HGB_TEST_B" "Petersgraben Th. v. 20 neben 18") ∧
    (parsePartofStage "HGB_TEST_B" "Petersgraben Th. v. 20 neben 18" "Petersgraben"
       (some (NumVal.scalar "20")) (some " neben 18")).leftoverCol = some "" := by
  decide

/-- C9 amended: parsing the title Petersgraben Th. v. 20 neben 18
yields the street Petersgraben, the scalar number 20 and the part-of
number 20; the next-to number 18 is matched by the pattern but not
recorded in the parser output. -/
theorem parse_petersgraben_result :
    parseAddress "HGB_TEST_B" "Petersgraben Th. v. 20 neben 18" =
      ⟨"Petersgraben", some (NumVal.scalar "20"), some (NumVal.scalar "20")⟩ := by
  decide

/-! ## ClusterBuilder

Per street, the source collects the distinct house numbers, and for
each number grows the set of dossiers containing it by repeatedly
pulling in every dossier that shares a number with the current set
(the while loop over newly connected numbers).  Any resulting group of
more than one dossier is written back, as the id list of the group, to
the connected-dossier cell of every member.  The while loop is embedded
as an iteration of its one-pass step with enough fuel to reach the
fixed point, which the termination argument of the source guarantees
exists within as many passes as there are dossiers on the street. -/

structure SDossier where
  id : String
  numbers : List String
deriving DecidableEq, Repr

/-- The id of the street row at a given frame index. -/
def idAt (ds : List SDossier) (i : Nat) : String :=
  ((ds.get? i).map SDossier.id).getD ""

/-- The numbers of the street row at a given frame index. -/
def numbersAt (ds : List SDossier) (i : Nat) : List String :=
  ((ds.get? i).map SDossier.numbers).getD []

/-- The seed set for one house number: the indices of all street rows
whose numbers contain it. -/
def seedIdx (ds : List SDossier) (n : String) : List Nat :=
  (List.range ds.length).filter (fun i => (numbersAt ds i).contains n)

/-- Do the rows at the two indices share a house number? -/
def sharesIdx (ds : List SDossier) (i j : Nat) : Bool :=
  (numbersAt ds i).any (fun m => (numbersAt ds j).contains m)

/-- One pass of the closure loop: append every not yet included row
that shares a number with the current set. -/
def closeStep (ds : List SDossier) (S : List Nat) : List Nat :=
  S ++ (List.range ds.length).filter
    (fun i => !S.contains i && S.any (fun j => sharesIdx ds j i))

def closeIter (ds : List SDossier) : Nat → List Nat → List Nat
  | 0, S => S
  | f + 1, S => closeIter ds f (closeStep ds S)

/-- The distinct numbers connected to a set of rows, the n-connected
list of the source before the while loop. -/
def numbersOfSet (ds : List SDossier) (S : List Nat) : List String :=
  (S.flatMap (fun i => numbersAt ds i)).dedup

/-- The dossier group grown from one house number: the seed set,
closed under shared numbers when more than one connected number
exists (the guard of the source). -/
def component (ds : List SDossier) (n : String) : List Nat :=
  let s := seedIdx ds n
  if 1 < (numbersOfSet ds s).length then closeIter ds ds.length s else s

/-- The distinct house numbers of the street. -/
def allNumbers (ds : List SDossier) : List String :=
  (ds.flatMap SDossier.numbers).dedup

/-- The write-back of one number group: every member of a group of
more than one row receives the id list of the group. -/
def writeComp (ds : List SDossier) (st : Nat → List String) (n : String) :
    Nat → List String :=
  let comp := component ds n
  if 1 < comp.length then
    fun k => if comp.contains k then comp.map (idAt ds) else st k
  else st

/-- The connected-dossier cells of one street after the cluster loop:
the fold of the write-back over the distinct numbers, starting from
empty cells. -/
def clusterConnected (ds : List SDossier) : Nat → List String :=
  (allNumbers ds).foldl (writeComp ds) (fun _ => [])

/-! ## Cluster enlargement by additional addresses

After all streets are processed, each additional-address correction
merges the cluster of the corrected dossier with the cluster of the
dossier found at the additional address.  The lookup of the corrected
dossier follows the same index pattern as the correction loops, so an
absent id aborts the run (none result). -/

structure GDossier where
  id : String
  street : String
  numbers : Option NumVal
  connected : List String
deriving DecidableEq, Repr

/-- The united and deduplicated cluster of one additional-address
merge: both connected lists and both ids. -/
def enlargeCluster (dRow m : GDossier) (dId : String) : List String :=
  (dRow.connected ++ m.connected ++ [dId] ++ [m.id]).dedup

/-- One additional-address merge: the rows matching the parsed street
and scalar number are looked up; when none matches a console message is
printed and nothing changes; otherwise the two connected lists and the
two ids are united, deduplicated, and written to every dossier whose id
lies in the union. -/
def enlargeStep (tbl : List GDossier) (dId addrStreet addrNum : String) :
    Option (List GDossier) :=
  match tbl.filter (fun x =>
      x.street == addrStreet && x.numbers == some (NumVal.scalar addrNum)) with
  | [] => some tbl
  | m :: _ =>
    match tbl.find? (fun x => x.id == dId) with
    | none => none
    | some dRow =>
      some (tbl.map (fun x =>
        if (enlargeCluster dRow m dId).contains x.id then
          { x with connected := enlargeCluster dRow m dId } else x))

/-! ### Properties of the closure loop -/

/-- One sharing step between two in-range street rows. -/
def ConnStep (ds : List SDossier) (i j : Nat) : Prop :=
  i < ds.length ∧ j < ds.length ∧ sharesIdx ds i j = true

/-- Connectedness of street rows: the reflexive transitive closure of
the sharing step. -/
def Conn (ds : List SDossier) : Nat → Nat → Prop :=
  Relation.ReflTransGen (ConnStep ds)

theorem sharesIdx_iff (ds : List SDossier) (i j : Nat) :
    sharesIdx ds i j = true ↔
      ∃ m, m ∈ numbersAt ds i ∧ m ∈ numbersAt ds j := by
  unfold sharesIdx
  rw [List.any_eq_true]
  constructor
  · rintro ⟨m, hm, hc⟩
    exact ⟨m, hm, (List.elem_iff).mp hc⟩
  · rintro ⟨m, hm, hc⟩
    exact ⟨m, hm, (List.elem_iff).mpr hc⟩

theorem sharesIdx_symm (ds : List SDossier) (i j : Nat)
    (h : sharesIdx ds i j = true) : sharesIdx ds j i = true := by
  rw [sharesIdx_iff] at h ⊢
  rcases h with ⟨m, h1, h2⟩
  exact ⟨m, h2, h1⟩

theorem connStep_symm (ds : List SDossier) : Symmetric (ConnStep ds) := by
  rintro i j ⟨hi, hj, hs⟩
  exact ⟨hj, hi, sharesIdx_symm ds i j hs⟩

theorem conn_symm (ds : List SDossier) : Symmetric (Conn ds) :=
  Relation.ReflTransGen.symmetric (connStep_symm ds)

/-- The invariant of the closure state: distinct in-range indices. -/
def GoodSet (ds : List SDossier) (S : List Nat) : Prop :=
  S.Nodup ∧ ∀ i ∈ S, i < ds.length

theorem seedIdx_good (ds : List SDossier) (n : String) :
    GoodSet ds (seedIdx ds n) := by
  constructor
  · exact List.Nodup.filter _ (List.nodup_range ds.length)
  · intro i hi
    have := List.mem_filter.mp hi
    exact List.mem_range.mp this.1

theorem seedIdx_mem_iff (ds : List SDossier) (n : String) (i : Nat) :
    i ∈ seedIdx ds n ↔ i < ds.length ∧ n ∈ numbersAt ds i := by
  unfold seedIdx
  rw [List.mem_filter, List.mem_range]
  constructor
  · rintro ⟨h1, h2⟩
    exact ⟨h1, (List.elem_iff).mp h2⟩
  · rintro ⟨h1, h2⟩
    exact ⟨h1, (List.elem_iff).mpr h2⟩

theorem subset_closeStep (ds : List SDossier) (S : List Nat) :
    S ⊆ closeStep ds S := by
  intro i hi
  exact List.mem_append_left _ hi

theorem closeStep_mem (ds : List SDossier) (S : List Nat) (i : Nat)
    (h : i ∈ closeStep ds S) :
    i ∈ S ∨ (i < ds.length ∧ i ∉ S ∧ ∃ j ∈ S, sharesIdx ds j i = true) := by
  rcases List.mem_append.mp h with h1 | h2
  · exact Or.inl h1
  · right
    have hm := List.mem_filter.mp h2
    rcases hm with ⟨hr, hc⟩
    rw [Bool.and_eq_true] at hc
    refine ⟨List.mem_range.mp hr, ?_, ?_⟩
    · intro hmem
      have := hc.1
      rw [Bool.not_eq_true', ← Bool.not_eq_true] at this
      exact this ((List.elem_iff).mpr hmem)
    · rw [List.any_eq_true] at hc
      exact hc.2

theorem closeStep_add (ds : List SDossier) (S : List Nat) (i j : Nat)
    (hj : j ∈ S) (hi : i < ds.length) (hs : sharesIdx ds j i = true) :
    i ∈ closeStep ds S := by
  by_cases hmem : i ∈ S
  · exact subset_closeStep ds S hmem
  · apply List.mem_append_right
    rw [List.mem_filter]
    refine ⟨List.mem_range.mpr hi, ?_⟩
    rw [Bool.and_eq_true]
    constructor
    · rw [Bool.not_eq_true', ← Bool.not_eq_true]
      intro hc
      exact hmem ((List.elem_iff).mp hc)
    · rw [List.any_eq_true]
      exact ⟨j, hj, hs⟩

theorem closeStep_good (ds : List SDossier) (S : List Nat)
    (h : GoodSet ds S) : GoodSet ds (closeStep ds S) := by
  rcases h with ⟨hnd, hlt⟩
  constructor
  · unfold closeStep
    rw [List.nodup_append]
    refine ⟨hnd, List.Nodup.filter _ (List.nodup_range ds.length), ?_⟩
    intro a ha hb
    have := (List.mem_filter.mp hb).2
    rw [Bool.and_eq_true] at this
    have h1 := this.1
    rw [Bool.not_eq_true', ← Bool.not_eq_true] at h1
    exact h1 ((List.elem_iff).mpr ha)
  · intro i hi
    rcases closeStep_mem ds S i hi with h1 | h2
    · exact hlt i h1
    · exact h2.1

theorem closeIter_of_fix (ds : List SDossier) (f : Nat) (S : List Nat)
    (h : closeStep ds S = S) : closeIter ds f S = S := by
  induction f with
  | zero => rfl
  | succ f ih => simp [closeIter, h, ih]

theorem closeStep_nil (ds : List SDossier) : closeStep ds [] = [] := by
  unfold closeStep
  rw [List.nil_append, List.eq_nil_iff_forall_not_mem]
  intro i hi
  have := (List.mem_filter.mp hi).2
  rw [Bool.and_eq_true] at this
  simp at this

theorem closeStep_length (ds : List SDossier) (S : List Nat)
    (h : closeStep ds S ≠ S) : S.length < (closeStep ds S).length := by
  unfold closeStep at h ⊢
  rw [List.length_append]
  rcases Nat.eq_zero_or_pos ((List.range ds.length).filter
    (fun i => !S.contains i && S.any (fun j => sharesIdx ds j i))).length with h0 | h0
  · exfalso
    apply h
    rw [List.length_eq_zero] at h0
    rw [h0, List.append_nil]
  · omega

theorem goodSet_length_le (ds : List SDossier) (S : List Nat)
    (h : GoodSet ds S) : S.length ≤ ds.length := by
  rcases h with ⟨hnd, hlt⟩
  have h1 : S.toFinset ⊆ Finset.range ds.length := by
    intro i hi
    rw [Finset.mem_range]
    exact hlt i (List.mem_toFinset.mp hi)
  have h2 := Finset.card_le_card h1
  rw [List.toFinset_card_of_nodup hnd, Finset.card_range] at h2
  exact h2

theorem closeIter_good (ds : List SDossier) (f : Nat) (S : List Nat)
    (h : GoodSet ds S) : GoodSet ds (closeIter ds f S) := by
  induction f generalizing S with
  | zero => exact h
  | succ f ih => exact ih _ (closeStep_good ds S h)

theorem closeIter_fix_or_length (ds : List SDossier) (f : Nat) (S : List Nat)
    (h : GoodSet ds S) :
    closeStep ds (closeIter ds f S) = closeIter ds f S ∨
      S.length + f ≤ (closeIter ds f S).length := by
  induction f generalizing S with
  | zero => right; simp [closeIter]
  | succ f ih =>
    by_cases hfix : closeStep ds S = S
    · left
      rw [show closeIter ds (f + 1) S = closeIter ds f (closeStep ds S) from rfl,
        hfix, closeIter_of_fix ds f S hfix, hfix]
    · have hlen := closeStep_length ds S hfix
      rcases ih (closeStep ds S) (closeStep_good ds S h) with h1 | h1
      · left; exact h1
      · right
        have : closeIter ds (f + 1) S = closeIter ds f (closeStep ds S) := rfl
        rw [this]
        omega

/-- The fixed point of the while loop is reached within as many passes
as there are street rows. -/
theorem closeIter_fix (ds : List SDossier) (S : List Nat) (h : GoodSet ds S) :
    closeStep ds (closeIter ds ds.length S) = closeIter ds ds.length S := by
  rcases closeIter_fix_or_length ds ds.length S h with h1 | h1
  · exact h1
  · have hg := closeIter_good ds ds.length S h
    have hle := goodSet_length_le ds _ hg
    have hS : S.length = 0 := by omega
    rw [List.length_eq_zero] at hS
    subst hS
    rw [closeIter_of_fix ds ds.length [] (closeStep_nil ds), closeStep_nil ds]

theorem closeIter_mem_conn (ds : List SDossier) (f : Nat) (S : List Nat)
    (hg : GoodSet ds S) (i : Nat) (hi : i ∈ closeIter ds f S) :
    ∃ s ∈ S, Conn ds s i := by
  induction f generalizing S with
  | zero => exact ⟨i, hi, Relation.ReflTransGen.refl⟩
  | succ f ih =>
    have hi2 : i ∈ closeIter ds f (closeStep ds S) := hi
    rcases ih (closeStep ds S) (closeStep_good ds S hg) hi2 with ⟨t, ht, hconn⟩
    rcases closeStep_mem ds S t ht with h1 | h2
    · exact ⟨t, h1, hconn⟩
    · rcases h2 with ⟨hlt, -, j, hj, hs⟩
      refine ⟨j, hj, Relation.ReflTransGen.head ⟨hg.2 j hj, hlt, hs⟩ hconn⟩

theorem fix_closed_step (ds : List SDossier) (F : List Nat)
    (hfix : closeStep ds F = F) (j i : Nat) (hj : j ∈ F)
    (hstep : ConnStep ds j i) : i ∈ F := by
  rcases hstep with ⟨-, hi, hs⟩
  rw [← hfix]
  exact closeStep_add ds F i j hj hi hs

theorem fix_closed_conn (ds : List SDossier) (F : List Nat)
    (hfix : closeStep ds F = F) (j i : Nat) (hj : j ∈ F)
    (hconn : Conn ds j i) : i ∈ F := by
  induction hconn with
  | refl => exact hj
  | tail hc hstep ih => exact fix_closed_step ds F hfix _ _ ih hstep

/-- A short list with two distinct members does not exist. -/
theorem one_lt_length_of_two_mem {α : Type} (L : List α) (a b : α)
    (ha : a ∈ L) (hb : b ∈ L) (hne : a ≠ b) : 1 < L.length := by
  match L, ha with
  | [x], ha =>
    have h1 : a = x := List.mem_singleton.mp ha
    have h2 : b = x := List.mem_singleton.mp hb
    exact absurd (h1.trans h2.symm) hne
  | x :: y :: rest, _ =>
    simp only [List.length_cons]
    omega

/-- In the single-connected-number case the seed set is already its
own closure: every shared number equals the seed number. -/
theorem closeStep_seed_of_single (ds : List SDossier) (n : String)
    (h : ¬ 1 < (numbersOfSet ds (seedIdx ds n)).length) :
    closeStep ds (seedIdx ds n) = seedIdx ds n := by
  unfold closeStep
  have hfilter : (List.range ds.length).filter
      (fun i => !(seedIdx ds n).contains i &&
        (seedIdx ds n).any (fun j => sharesIdx ds j i)) = [] := by
    rw [List.eq_nil_iff_forall_not_mem]
    intro i hi
    have hm := (List.mem_filter.mp hi).2
    rw [Bool.and_eq_true] at hm
    rcases hm with ⟨hnc, hany⟩
    rw [List.any_eq_true] at hany
    rcases hany with ⟨j, hj, hs⟩
    rw [sharesIdx_iff] at hs
    rcases hs with ⟨m, hmj, hmi⟩
    have hjseed := (seedIdx_mem_iff ds n j).mp hj
    have hmem : ∀ x, x ∈ numbersAt ds j → x ∈ numbersOfSet ds (seedIdx ds n) := by
      intro x hx
      unfold numbersOfSet
      rw [List.mem_dedup, List.mem_flatMap]
      exact ⟨j, hj, hx⟩
    have hmn : m ∈ numbersOfSet ds (seedIdx ds n) := hmem m hmj
    have hnn : n ∈ numbersOfSet ds (seedIdx ds n) := hmem n hjseed.2
    have heq : m = n := by
      by_contra hne
      exact h (one_lt_length_of_two_mem _ m n hmn hnn hne)
    have hiseed : i ∈ seedIdx ds n := by
      rw [seedIdx_mem_iff]
      exact ⟨List.mem_range.mp (List.mem_filter.mp hi).1, heq ▸ hmi⟩
    rw [Bool.not_eq_true', ← Bool.not_eq_true] at hnc
    exact hnc ((List.elem_iff).mpr hiseed)
  rw [hfilter, List.append_nil]

theorem component_eq (ds : List SDossier) (n : String) :
    component ds n = if 1 < (numbersOfSet ds (seedIdx ds n)).length
      then closeIter ds ds.length (seedIdx ds n) else seedIdx ds n := rfl

theorem component_fix (ds : List SDossier) (n : String) :
    closeStep ds (component ds n) = component ds n := by
  rw [component_eq]
  split
  · exact closeIter_fix ds _ (seedIdx_good ds n)
  · rename_i h
    exact closeStep_seed_of_single ds n h

theorem component_good (ds : List SDossier) (n : String) :
    GoodSet ds (component ds n) := by
  rw [component_eq]
  split
  · exact closeIter_good ds _ _ (seedIdx_good ds n)
  · exact seedIdx_good ds n

theorem seedIdx_subset_component (ds : List SDossier) (n : String) :
    seedIdx ds n ⊆ component ds n := by
  rw [component_eq]
  split
  · have haux : ∀ f S, S ⊆ closeIter ds f S := by
      intro f
      induction f with
      | zero => intro S; exact fun i h => h
      | succ f ih =>
        intro S i hi
        exact ih (closeStep ds S) (subset_closeStep ds S hi)
    exact haux ds.length _
  · exact fun i h => h

theorem component_mem_conn (ds : List SDossier) (n : String) (i : Nat)
    (hi : i ∈ component ds n) : ∃ s ∈ seedIdx ds n, Conn ds s i := by
  rw [component_eq] at hi
  split at hi
  · exact closeIter_mem_conn ds _ _ (seedIdx_good ds n) i hi
  · exact ⟨i, hi, Relation.ReflTransGen.refl⟩

theorem component_conn_pair (ds : List SDossier) (n : String) (i j : Nat)
    (hi : i ∈ component ds n) (hj : j ∈ component ds n) : Conn ds i j := by
  rcases component_mem_conn ds n i hi with ⟨s, hs, hsi⟩
  rcases component_mem_conn ds n j hj with ⟨t, ht, htj⟩
  have hs2 := (seedIdx_mem_iff ds n s).mp hs
  have ht2 := (seedIdx_mem_iff ds n t).mp ht
  have hst : Conn ds s t :=
    Relation.ReflTransGen.single
      ⟨hs2.1, ht2.1, (sharesIdx_iff ds s t).mpr ⟨n, hs2.2, ht2.2⟩⟩
  exact Relation.ReflTransGen.trans (conn_symm ds hsi)
    (Relation.ReflTransGen.trans hst htj)

theorem component_closed (ds : List SDossier) (n : String) (j i : Nat)
    (hj : j ∈ component ds n) (hconn : Conn ds j i) : i ∈ component ds n :=
  fix_closed_conn ds _ (component_fix ds n) j i hj hconn

/-- Two number groups sharing a member hold the same rows. -/
theorem component_same (ds : List SDossier) (n n2 : String) (k : Nat)
    (hk : k ∈ component ds n) (hk2 : k ∈ component ds n2) (i : Nat) :
    i ∈ component ds n ↔ i ∈ component ds n2 := by
  constructor
  · intro hi
    exact component_closed ds n2 k i hk2 (component_conn_pair ds n k i hk hi)
  · intro hi
    exact component_closed ds n k i hk (component_conn_pair ds n2 k i hk2 hi)

theorem component_mem_numbers_ne (ds : List SDossier) (n : String) (i : Nat)
    (hi : i ∈ component ds n) : numbersAt ds i ≠ [] := by
  rcases component_mem_conn ds n i hi with ⟨s, hs, hconn⟩
  rcases (Relation.reflTransGen_iff_eq_or_transGen.mp hconn) with heq | htg
  · subst heq
    have := (seedIdx_mem_iff ds n i).mp hs
    intro hnil
    rw [hnil] at this
    exact absurd this.2 (List.not_mem_nil n)
  · rcases (Relation.transGen_iff _ _ _).mp htg with hstep | ⟨c, -, hstep⟩
    all_goals
      rcases hstep with ⟨-, -, hs2⟩
      rw [sharesIdx_iff] at hs2
      rcases hs2 with ⟨m, -, hmi⟩
      intro hnil
      rw [hnil] at hmi
      exact absurd hmi (List.not_mem_nil m)

theorem numbersAt_mem_allNumbers (ds : List SDossier) (i : Nat) (m : String)
    (hi : i < ds.length) (hm : m ∈ numbersAt ds i) : m ∈ allNumbers ds := by
  unfold allNumbers
  rw [List.mem_dedup, List.mem_flatMap]
  have hget : ds.get? i = some (ds.get ⟨i, hi⟩) := List.get?_eq_get hi
  refine ⟨ds.get ⟨i, hi⟩, List.get_mem ds i hi, ?_⟩
  unfold numbersAt at hm
  rw [hget] at hm
  simpa using hm

/-! ### The fold of the write-back over the street numbers -/

/-- The invariant of the connected-dossier cells: every cell is empty
or holds the id list of a number group of more than one row that
contains its own row. -/
def StInv (ds : List SDossier) (st : Nat → List String) : Prop :=
  ∀ k, st k = [] ∨ ∃ n, k ∈ component ds n ∧ 1 < (component ds n).length ∧
    st k = (component ds n).map (idAt ds)

theorem writeComp_eq (ds : List SDossier) (st : Nat → List String) (n : String) :
    writeComp ds st n = if 1 < (component ds n).length then
      (fun k => if (component ds n).contains k then
        (component ds n).map (idAt ds) else st k)
    else st := rfl

theorem writeComp_apply (ds : List SDossier) (st : Nat → List String)
    (n : String) (k : Nat) :
    writeComp ds st n k = if 1 < (component ds n).length then
      (if (component ds n).contains k then
        (component ds n).map (idAt ds) else st k)
    else st k := by
  rw [writeComp_eq]
  split <;> rfl

theorem stInv_write (ds : List SDossier) (st : Nat → List String) (n : String)
    (h : StInv ds st) : StInv ds (writeComp ds st n) := by
  intro k
  rw [writeComp_apply]
  split
  · rename_i hlen
    by_cases hc : (component ds n).contains k = true
    · right
      exact ⟨n, (List.elem_iff).mp hc, hlen, if_pos hc⟩
    · rcases h k with h1 | ⟨n2, a2, b2, c2⟩
      · left; rw [if_neg hc]; exact h1
      · right; refine ⟨n2, a2, b2, ?_⟩; rw [if_neg hc]; exact c2
  · exact h k

theorem stInv_fold (ds : List SDossier) (l : List String) (st : Nat → List String)
    (h : StInv ds st) : StInv ds (l.foldl (writeComp ds) st) := by
  induction l generalizing st with
  | nil => exact h
  | cons n l ih => exact ih _ (stInv_write ds st n h)

theorem writeComp_nonempty (ds : List SDossier) (st : Nat → List String)
    (n : String) (k : Nat) (h : st k ≠ []) : writeComp ds st n k ≠ [] := by
  rw [writeComp_apply]
  split
  · rename_i hlen
    by_cases hc : (component ds n).contains k = true
    · rw [if_pos hc]
      rcases hx : component ds n with _ | ⟨y, ys⟩
      · rw [hx] at hlen; simp at hlen
      · simp
    · rw [if_neg hc]
      exact h
  · exact h

theorem fold_nonempty (ds : List SDossier) (l : List String)
    (st : Nat → List String) (k : Nat) (h : st k ≠ []) :
    (l.foldl (writeComp ds) st) k ≠ [] := by
  induction l generalizing st with
  | nil => exact h
  | cons n l ih => exact ih _ (writeComp_nonempty ds st n k h)

theorem fold_written (ds : List SDossier) (l : List String) (n : String) (k : Nat)
    (hk : k ∈ component ds n) (hlen : 1 < (component ds n).length) :
    ∀ st, n ∈ l → (l.foldl (writeComp ds) st) k ≠ [] := by
  induction l with
  | nil => intro st hn; exact absurd hn (List.not_mem_nil n)
  | cons a l ih =>
    intro st hn
    rcases List.mem_cons.mp hn with heq | hmem
    · subst heq
      simp only [List.foldl_cons]
      apply fold_nonempty
      rw [writeComp_apply, if_pos hlen]
      have hc : (component ds n).contains k = true := (List.elem_iff).mpr hk
      rw [if_pos hc]
      rcases hx : component ds n with _ | ⟨y, ys⟩
      · rw [hx] at hlen; simp at hlen
      · simp
    · exact ih _ hmem

theorem clusterConnected_inv (ds : List SDossier) :
    StInv ds (clusterConnected ds) :=
  stInv_fold ds _ _ (fun _ => Or.inl rfl)

theorem clusterConnected_written (ds : List SDossier) (n : String) (k : Nat)
    (hn : n ∈ allNumbers ds) (hk : k ∈ component ds n)
    (hlen : 1 < (component ds n).length) : clusterConnected ds k ≠ [] :=
  fold_written ds (allNumbers ds) n k hk hlen _ hn

theorem idAt_inj (ds : List SDossier) (hids : (ds.map SDossier.id).Nodup)
    (i j : Nat) (hi : i < ds.length) (hj : j < ds.length)
    (h : idAt ds i = idAt ds j) : i = j := by
  unfold idAt at h
  rw [List.get?_eq_get hi, List.get?_eq_get hj] at h
  simp only [Option.map_some', Option.getD_some] at h
  have hmap : (ds.map SDossier.id).get ⟨i, by simpa using hi⟩ =
      (ds.map SDossier.id).get ⟨j, by simpa using hj⟩ := by
    simp only [List.get_eq_getElem, List.getElem_map]
    exact h
  have := (List.Nodup.get_inj_iff hids).mp hmap
  simpa using this

theorem length_eq_of_same_mem (L M : List Nat) (hL : L.Nodup) (hM : M.Nodup)
    (h : ∀ x, x ∈ L ↔ x ∈ M) : L.length = M.length := by
  have hfs : L.toFinset = M.toFinset := by
    ext x
    rw [List.mem_toFinset, List.mem_toFinset]
    exact h x
  rw [← List.toFinset_card_of_nodup hL, ← List.toFinset_card_of_nodup hM, hfs]

/-- C1: after the cluster loop of one street, connected-dossier
membership is symmetric, and sharing a number with a second dossier
that shares a number with a third puts the third into the connected
set of the first, under the primary-key hypothesis that dossier ids are
distinct. -/
theorem clusterBuilder_symm_trans (ds : List SDossier)
    (hids : (ds.map SDossier.id).Nodup) :
    (∀ a b, a < ds.length → b < ds.length →
      idAt ds b ∈ clusterConnected ds a → idAt ds a ∈ clusterConnected ds b) ∧
    (∀ a b c, a < ds.length → b < ds.length → c < ds.length → a ≠ b →
      (∃ m, m ∈ numbersAt ds a ∧ m ∈ numbersAt ds b) →
      (∃ m2, m2 ∈ numbersAt ds b ∧ m2 ∈ numbersAt ds c) →
      idAt ds c ∈ clusterConnected ds a) := by
  have htrans : ∀ a b c, a < ds.length → b < ds.length → c < ds.length → a ≠ b →
      (∃ m, m ∈ numbersAt ds a ∧ m ∈ numbersAt ds b) →
      (∃ m2, m2 ∈ numbersAt ds b ∧ m2 ∈ numbersAt ds c) →
      idAt ds c ∈ clusterConnected ds a := by
    rintro a b c ha hb hc hab ⟨m, hma, hmb⟩ ⟨m2, hm2b, hm2c⟩
    have hmall : m ∈ allNumbers ds := numbersAt_mem_allNumbers ds a m ha hma
    have hacomp : a ∈ component ds m :=
      seedIdx_subset_component ds m ((seedIdx_mem_iff ds m a).mpr ⟨ha, hma⟩)
    have hbcomp : b ∈ component ds m :=
      seedIdx_subset_component ds m ((seedIdx_mem_iff ds m b).mpr ⟨hb, hmb⟩)
    have hlen : 1 < (component ds m).length :=
      one_lt_length_of_two_mem _ a b hacomp hbcomp hab
    have hccomp : c ∈ component ds m :=
      component_closed ds m b c hbcomp
        (Relation.ReflTransGen.single
          ⟨hb, hc, (sharesIdx_iff ds b c).mpr ⟨m2, hm2b, hm2c⟩⟩)
    have hne := clusterConnected_written ds m a hmall hacomp hlen
    rcases clusterConnected_inv ds a with h0 | ⟨n2, han2, hlen2, heq⟩
    · exact absurd h0 hne
    · rw [heq]
      have hcn2 : c ∈ component ds n2 :=
        (component_same ds m n2 a hacomp han2 c).mp hccomp
      exact List.mem_map_of_mem (idAt ds) hcn2
  refine ⟨?_, htrans⟩
  intro a b ha hb hmem
  have hne : clusterConnected ds a ≠ [] := by
    intro h0; rw [h0] at hmem; exact absurd hmem (List.not_mem_nil _)
  rcases clusterConnected_inv ds a with h0 | ⟨n, han, hlen, heq⟩
  · exact absurd h0 hne
  rw [heq] at hmem
  rcases List.mem_map.mp hmem with ⟨j, hj, hjid⟩
  have hjlt := (component_good ds n).2 j hj
  have hjb : j = b := idAt_inj ds hids j b hjlt hb hjid
  subst hjb
  have hbnum := component_mem_numbers_ne ds n j hj
  obtain ⟨m, hm⟩ : ∃ m, m ∈ numbersAt ds j := by
    cases hx : numbersAt ds j with
    | nil => exact absurd hx hbnum
    | cons y ys => exact ⟨y, hx ▸ List.mem_cons_self y ys⟩
  have hmall := numbersAt_mem_allNumbers ds j m hb hm
  have hbcomp2 : j ∈ component ds m :=
    seedIdx_subset_component ds m ((seedIdx_mem_iff ds m j).mpr ⟨hb, hm⟩)
  have hsame := component_same ds n m j hj hbcomp2
  have hlen2 : 1 < (component ds m).length := by
    have := length_eq_of_same_mem (component ds n) (component ds m)
      (component_good ds n).1 (component_good ds m).1 (fun x => hsame x)
    omega
  have hneb := clusterConnected_written ds m j hmall hbcomp2 hlen2
  rcases clusterConnected_inv ds j with h0 | ⟨n3, hbn3, hlen3, heq3⟩
  · exact absurd h0 hneb
  rw [heq3]
  have ham : a ∈ component ds m := (hsame a).mp han
  have hacompn3 : a ∈ component ds n3 :=
    (component_same ds m n3 j hbcomp2 hbn3 a).mp ham
  exact List.mem_map_of_mem (idAt ds) hacompn3

/-- A street of three dossiers, two pairs of which share a number. -/
def dsEx : List SDossier :=
  [⟨"A", ["21", "23"]⟩, ⟨"B", ["23", "25"]⟩, ⟨"C", ["25"]⟩]

/-- C1 witness. -/
theorem clusterBuilder_symm_trans_witness :
    idAt dsEx 0 ∈ clusterConnected dsEx 1 ∧
    idAt dsEx 2 ∈ clusterConnected dsEx 0 :=
  ⟨(clusterBuilder_symm_trans dsEx (by decide)).1 0 1 (by decide) (by decide)
     (by decide),
   (clusterBuilder_symm_trans dsEx (by decide)).2 0 1 2 (by decide) (by decide)
     (by decide) (by decide) ⟨"23", by decide⟩ ⟨"25", by decide⟩⟩

theorem enlargeStep_self_mem (tbl tbl2 : List GDossier) (dId s nv : String)
    (htbl : ∀ r ∈ tbl, r.connected ≠ [] → r.id ∈ r.connected)
    (h : enlargeStep tbl dId s nv = some tbl2) :
    ∀ r ∈ tbl2, r.connected ≠ [] → r.id ∈ r.connected := by
  unfold enlargeStep at h
  rcases hms : tbl.filter (fun x =>
      x.street == s && x.numbers == some (NumVal.scalar nv)) with _ | ⟨m, rest⟩ <;>
    rw [hms] at h
  · simp only [Option.some_inj] at h
    subst h
    exact htbl
  · rcases hfind : tbl.find? (fun x => x.id == dId) with _ | dRow <;>
      rw [hfind] at h
    · simp at h
    · simp only [Option.some_inj] at h
      subst h
      intro r hr
      rcases List.mem_map.mp hr with ⟨x, hx, hxr⟩
      subst hxr
      by_cases hc : (enlargeCluster dRow m dId).contains x.id = true
      · rw [if_pos hc]
        intro _hne2
        exact (List.elem_iff).mp hc
      · rw [if_neg hc]
        exact htbl x hx

/-- C10 amended: every nonempty connected-dossier cell of the street
cluster loop contains the id of its own row and has length at least
two, and the additional-address enlargement preserves the
own-id-containment of nonempty cells; the length-two lower bound,
however, does not survive the enlargement in general. -/
theorem connected_self_mem (ds : List SDossier) (k : Nat)
    (tbl tbl2 : List GDossier) (dId s nv : String)
    (hne : clusterConnected ds k ≠ [])
    (htbl : ∀ r ∈ tbl, r.connected ≠ [] → r.id ∈ r.connected)
    (henl : enlargeStep tbl dId s nv = some tbl2) :
    (idAt ds k ∈ clusterConnected ds k ∧ 2 ≤ (clusterConnected ds k).length) ∧
    (∀ r ∈ tbl2, r.connected ≠ [] → r.id ∈ r.connected) := by
  constructor
  · rcases clusterConnected_inv ds k with h0 | ⟨n, hk, hlen, heq⟩
    · exact absurd h0 hne
    · rw [heq]
      refine ⟨List.mem_map_of_mem (idAt ds) hk, ?_⟩
      rw [List.length_map]
      omega
  · exact enlargeStep_self_mem tbl tbl2 dId s nv htbl henl

/-- C10 counterexample: an additional-address correction that maps an
unclustered dossier to its own address produces a nonempty connected
cell holding only the own id, of length one; the claimed lower bound of
two on the assigned cluster size fails at the end of such a run. -/
theorem connected_singleton_cex :
    enlargeStep [⟨"D", "S", some (NumVal.scalar "5"), []⟩] "D" "S" "5" =
      some [⟨"D", "S", some (NumVal.scalar "5"), ["D"]⟩] ∧
    (["D"] : List String) ≠ [] ∧ ¬ 2 ≤ (["D"] : List String).length := by
  decide

/-- C10 witness. -/
theorem connected_self_mem_witness :
    idAt dsEx 0 ∈ clusterConnected dsEx 0 ∧
    2 ≤ (clusterConnected dsEx 0).length :=
  (connected_self_mem dsEx 0
    [⟨"D", "S", some (NumVal.scalar "5"), []⟩]
    [⟨"D", "S", some (NumVal.scalar "5"), ["D"]⟩] "D" "S" "5"
    (by decide) (by decide) (by decide)).1

end HGB
